import Mathlib

/-!
Verification of the OpenMDAO core layer: a shallow embedding, in Lean 4, of
the vector-layout, connection-resolution and linear-apply machinery of
`openmdao/core/group.py`, `openmdao/core/vec_wrapper.py` and
`openmdao/components/indep_var_comp.py`, together with proofs of the
testable properties the specification states about them.

Machine integers in the source are numpy integer arrays; we model index
values as `Int` (no overflow is exercised by the index math) and vector
payloads as `ℚ`.  Fallible operations return `Except`.
-/

namespace OpenMDAO

/-! ## Sizes-table sums

`u_sizes` / `p_sizes` are (rank × var) integer matrices.  The source forms
three kinds of numpy sums over them; we model a matrix as a function
`ℕ → ℕ → Int` together with an explicit column count. -/

/-- Embeds `np.sum(m[r, :c])`: sum of the first `c` entries of row `r`. -/
def rowPrefixSum (m : ℕ → ℕ → Int) (r c : ℕ) : Int :=
  ((List.range c).map (fun j => m r j)).sum

/-- Embeds `np.sum(m[:r, c])`: sum of column `c` over the first `r` rows. -/
def colPrefixSum (m : ℕ → ℕ → Int) (r c : ℕ) : Int :=
  ((List.range r).map (fun i => m i c)).sum

/-- Embeds `np.sum(m[:r, :])` for a matrix with `cols` columns: full sum of the
first `r` rows. -/
def rectSum (m : ℕ → ℕ → Int) (r cols : ℕ) : Int :=
  ((List.range r).map (fun i => rowPrefixSum m i cols)).sum

/-- Embeds `VecWrapper.make_idx_array(start, stop)`: `numpy.arange(start, stop)`
as a list of integers. -/
def make_idx_array (start stop : Int) : List Int :=
  (List.range (stop - start).toNat).map (fun (i : ℕ) => start + (i : Int))

/-! ## `Group._get_global_idxs` (group.py lines 1066-1161) -/

/-- The slice of variable metadata that `_get_global_idxs` consults:
presence of `src_indices`, the `size` entry, and the `remote` flag. -/
structure GVarMeta where
  srcIndices : Option (List Int)
  size : ℕ
  remote : Bool
deriving DecidableEq, Repr

/-- All arguments of `Group._get_global_idxs`, plus the pieces of `self`
state it reads: `self.comm.rank` (`iproc`), `self.comm.size`,
`self._owning_ranks` for the unknown (`ownU`) and the param (`ownP`),
the positions of the two variables in the sizes tables (`ivar` for the
unknown, `pvarIdx` for `p_var_idxs[pname]`), the two sizes tables with
their column counts, and the mode (`rev = (mode == 'rev')`). -/
structure GIdxInput where
  umeta : GVarMeta
  pmeta : GVarMeta
  iproc : ℕ
  commSize : ℕ
  ownU : ℕ
  ownP : ℕ
  ivar : ℕ
  pvarIdx : ℕ
  uSizes : ℕ → ℕ → Int
  uNVars : ℕ
  pSizes : ℕ → ℕ → Int
  pNVars : ℕ
  rev : Bool

/-- The remote-endpoint early-exit test of `_get_global_idxs`
(group.py lines 1113-1115). -/
def remoteShortcut (inp : GIdxInput) : Bool :=
  let udist := inp.umeta.srcIndices.isSome
  let pdist := inp.pmeta.srcIndices.isSome
  (!inp.rev && inp.pmeta.remote) ||
    (inp.rev && !pdist && inp.umeta.remote) ||
    (inp.rev && udist && !pdist && inp.iproc != inp.ownP)

/-- Computes `arg_idxs` (group.py lines 1119-1122): the param's `src_indices` when
present, else `make_idx_array(0, pmeta['size'])`. -/
def argIdxsOf (inp : GIdxInput) : List Int :=
  match inp.pmeta.srcIndices with
  | some idxs => idxs
  | none => make_idx_array 0 inp.pmeta.size

/-- One entry of `new_indices` in the distributed branch (group.py lines
1126-1145).  The numpy loop over ranks assigns, position by position,
`arg_idxs[j] + offset(irank)` whenever `arg_idxs[j]` falls inside rank
`irank`'s slice of the source variable; positions hit by no rank keep the
`np.zeros` initial value, so the per-position effect is this fold. -/
def distNewIndex (inp : GIdxInput) (a : Int) : Int :=
  (List.range inp.commSize).foldl
    (fun curr irank =>
      let start := colPrefixSum inp.uSizes irank inp.ivar
      let stop := start + inp.uSizes irank inp.ivar
      if start ≤ a ∧ a < stop then
        a + (-start + rectSum inp.uSizes irank inp.uNVars
              + rowPrefixSum inp.uSizes irank inp.ivar)
      else curr)
    0

/-- The `var_rank` used for the target-side start offset (group.py lines
1148, 1151-1155): `iproc` in the distributed branch, else the owning rank
of the param in reverse mode and `iproc` in forward mode. -/
def tgtVarRank (inp : GIdxInput) : ℕ :=
  if inp.umeta.srcIndices.isSome || inp.pmeta.srcIndices.isSome then
    inp.iproc
  else
    if inp.rev then inp.ownP else inp.iproc

/-- Computes `tgt_start` (group.py lines 1157-1158):
`np.sum(p_sizes[:var_rank]) + np.sum(p_sizes[var_rank, :p_var_idxs[pname]])`. -/
def tgtStartOf (inp : GIdxInput) : Int :=
  rectSum inp.pSizes (tgtVarRank inp) inp.pNVars +
    rowPrefixSum inp.pSizes (tgtVarRank inp) inp.pvarIdx

/-- Embeds `Group._get_global_idxs` (group.py lines 1104-1161): returns the pair
(global unknown indices, global param indices) for one connection on the
current rank. -/
def get_global_idxs (inp : GIdxInput) : List Int × List Int :=
  if remoteShortcut inp then
    (make_idx_array 0 0, make_idx_array 0 0)
  else
    let argIdxs := argIdxsOf inp
    let srcIdxs :=
      if inp.umeta.srcIndices.isSome || inp.pmeta.srcIndices.isSome then
        argIdxs.map (distNewIndex inp)
      else
        let varRank := if inp.rev then inp.iproc else inp.ownU
        let offset := rectSum inp.uSizes varRank inp.uNVars +
          rowPrefixSum inp.uSizes varRank inp.ivar
        argIdxs.map (fun a => a + offset)
    (srcIdxs, (make_idx_array 0 argIdxs.length).map (fun i => i + tgtStartOf inp))

/-! ## `Group._sys_apply_linear` (group.py lines 643-684)

The method is straight-line control flow whose observable behaviour, for
the temporal claim, is the order of its effects: per-VOI full derivative
scatters (`self._transfer_data(deriv=True, ...)`) versus the recursive
`_sys_apply_linear` calls on the local subsystems.  We embed it as the
trace of those effects. -/

inductive Mode where
  | fwd
  | rev
deriving DecidableEq, Repr

/-- An observable effect of `Group._sys_apply_linear`: a full derivative
scatter for one VOI, a child `_sys_apply_linear` invocation, or the
finite-difference fallback taken when `fd_options['force_fd']` is set. -/
inductive LinEvent where
  | xfer (mode : Mode) (voi : Option String)
  | childApply (name : String)
  | fdFallback
deriving DecidableEq, Repr

/-- Trace of `Group._sys_apply_linear` (group.py lines 643-684): nothing
when inactive; otherwise forward scatters for each VOI first (only in
'fwd' mode), then either the finite-difference fallback or the child
calls in local-subsystem order, then reverse scatters for each VOI (only
in 'rev' mode). -/
def group_sys_apply_linear (isActive forceFD : Bool) (mode : Mode)
    (vois : List (Option String)) (children : List String) : List LinEvent :=
  if !isActive then []
  else
    (if mode = Mode.fwd then vois.map (LinEvent.xfer Mode.fwd) else []) ++
    (if forceFD then [LinEvent.fdFallback]
     else children.map LinEvent.childApply) ++
    (if mode = Mode.rev then vois.map (LinEvent.xfer Mode.rev) else [])

/-- Recognizer for scatter events in a trace. -/
def isXfer : LinEvent → Bool
  | LinEvent.xfer _ _ => true
  | _ => false

/-- Recognizer for child-invocation events in a trace. -/
def isChildApply : LinEvent → Bool
  | LinEvent.childApply _ => true
  | _ => false

/-! ## `IndepVarComp._sys_apply_linear` (indep_var_comp.py lines 56-87)

The component's `dumat[voi]`/`drmat[voi]` vectors hold one slot per
output variable; the method acts elementwise (whole-vector numpy
operations without a mask, per-variable updates with one), so we model
the two vectors of one VOI as functions from variable name to value and
the optional `gs_outputs[voi]` mask as a boolean predicate. -/

/-- Embeds `IndepVarComp._sys_apply_linear` for one VOI: given the incoming
`du` and `dr` vectors, returns the pair (du after, dr after).
In 'fwd' mode `rhs = drmat` is zeroed and then incremented from
`sol = dumat` (on masked rows only, when a mask is given); in 'rev' mode
`rhs = dumat` is incremented from `sol = drmat` without being zeroed. -/
def ivc_sys_apply_linear (mode : Mode) (du dr : String → ℚ)
    (gs : Option (String → Bool)) : (String → ℚ) × (String → ℚ) :=
  match mode with
  | Mode.fwd =>
    let dr' := fun v =>
      match gs with
      | none => du v
      | some mask => if mask v then du v else 0
    (du, dr')
  | Mode.rev =>
    let du' := fun v =>
      match gs with
      | none => du v + dr v
      | some mask => if mask v then du v + dr v else du v
    (du', dr)

/-! ## VecWrapper accessors (vec_wrapper.py lines 518-580, 972-1017)

`_setup_get_funct` / `_setup_set_funct` select per-variable closures; a
read through `__getitem__` then runs the selected getter on the variable's
metadata.  We embed the metadata fields that the selection consults and
the end-to-end read/write as functions returning `Except`. -/

/-- The per-variable metadata fields consulted by the accessor setup:
`promoted_name`, the absolute `pathname`, the `remote` and `pass_by_obj`
flags, the optional stored `unit_conv = (scale, offset)`, and the flat
buffer slice `val`. -/
structure AccMeta where
  promoted_name : String
  pathname : String
  remote : Bool
  pass_by_obj : Bool
  unit_conv : Option (ℚ × ℚ)
  val : List ℚ

/-- The message raised by `_remote_access_error` (vec_wrapper.py lines
1015-1017): note it interpolates `meta['promoted_name']`. -/
def remote_access_msg (meta : AccMeta) : String :=
  "Cannot access remote Variable '" ++ meta.promoted_name ++ "' in this process."

/-- A read through a `VecWrapper` accessor (vec_wrapper.py lines 518-565
plus the getter bodies at lines 973-1004).  `derivUnits` is the wrapper's
`deriv_units` flag (True exactly for the dparams vector).  Remote
variables raise; pass-by-object variables return the stored object
(modelled by its value); otherwise, when no unit conversion is stored or
`deriv_units` is True the raw buffer is returned (`_get_arr` and its
shape variants), and when a conversion applies the getter returns
`scale * (val + offset)` elementwise (`_get_arr_units` and variants). -/
def vw_read (derivUnits : Bool) (meta : AccMeta) : Except String (List ℚ) :=
  if meta.remote then
    Except.error (remote_access_msg meta)
  else if meta.pass_by_obj then
    Except.ok meta.val
  else
    match meta.unit_conv with
    | none => Except.ok meta.val
    | some (scale, offset) =>
      if derivUnits then
        Except.ok meta.val
      else
        Except.ok (meta.val.map (fun x => scale * (x + offset)))

/-- A write through a `VecWrapper` accessor (vec_wrapper.py lines
567-580 plus setter bodies at lines 1006-1013): remote variables raise
the same `_remote_access_error`; otherwise the buffer is overwritten. -/
def vw_write (meta : AccMeta) (value : List ℚ) : Except String AccMeta :=
  if meta.remote then
    Except.error (remote_access_msg meta)
  else
    Except.ok { meta with val := value }

/-- Storage of a parameter's unit conversion during `TgtVecWrapper.setup`
(vec_wrapper.py lines 799-810): the dparams vector (`deriv_units` True)
stores the conversion with its offset forced to `0.0`. -/
def stored_unit_conv (derivUnits : Bool) (uc : ℚ × ℚ) : ℚ × ℚ :=
  if derivUnits then (uc.1, 0) else uc

/-- Embeds `TgtVecWrapper._apply_unit_derivatives` (vec_wrapper.py lines
893-900) on one variable: in a deriv-units wrapper, a variable with a
stored conversion has its buffer multiplied in place by the scale. -/
def apply_unit_derivatives (derivUnits : Bool) (meta : AccMeta) : AccMeta :=
  if derivUnits then
    match meta.unit_conv with
    | some (scale, _) => { meta with val := meta.val.map (fun x => x * scale) }
    | none => meta
  else meta

/-! ## `Group.solve_linear` (group.py lines 686-748) -/

/-- Zero vector of the same length, modelling `sol_vec[voi].vec[:] = 0.0`. -/
def zeroLike (v : List ℚ) : List ℚ := v.map (fun _ => 0)

/-- Decides `norm(vec) < 1e-15` exactly over `ℚ`: since the L2 norm is
nonnegative, `‖v‖ < t` for positive `t` iff `Σ v_i² < t²`. -/
def normLtTol (v : List ℚ) : Bool :=
  (v.map (fun x => x * x)).sum < (1 / 10 ^ 15) ^ 2

/-- Result of `Group.solve_linear`: whether the installed solver's
`solve` was invoked, the `rhs_buf` it was handed (in VOI iteration
order), and the final solution vectors. -/
structure SolveLinearResult where
  solverCalled : Bool
  rhsBuf : List (Option String × List ℚ)
  sol : Option String → List ℚ

/-- Embeds `Group.solve_linear` (group.py lines 727-748) after the mode swap:
`sol`/`rhs` are already `dumat`/`drmat` in 'fwd' mode and swapped in
'rev'.  Each VOI whose right-hand side has L2 norm below 1e-15 gets its
solution zeroed and is left out of `rhs_buf`; if `rhs_buf` ends up empty
the method returns without calling the solver, else the solver is called
on `rhs_buf` and its output written back for exactly those VOIs.
(`rhs_buf` is an `OrderedDict`; the VOI list holds distinct entries, so
its keys in order are the list below.)

One iteration of the VOI loop in `Group.solve_linear` (group.py
lines 734-740): a VOI whose right-hand side is (numerically) zero gets
its solution vector zeroed in place; otherwise a copy of its right-hand
side is appended to `rhs_buf`. -/
def slStep (rhs : Option String → List ℚ)
    (acc : List (Option String × List ℚ) × (Option String → List ℚ))
    (voi : Option String) :
    List (Option String × List ℚ) × (Option String → List ℚ) :=
  if normLtTol (rhs voi) then
    (acc.1, Function.update acc.2 voi (zeroLike (acc.2 voi)))
  else
    (acc.1 ++ [(voi, rhs voi)], acc.2)

def solve_linear (vois : List (Option String)) (rhs sol : Option String → List ℚ)
    (solver : List (Option String × List ℚ) → Option String → List ℚ) :
    SolveLinearResult :=
  let step := vois.foldl (slStep rhs) ([], sol)
  let rhsBuf := step.1
  if rhsBuf.length = 0 then
    { solverCalled := false, rhsBuf := rhsBuf, sol := step.2 }
  else
    let solBuf := solver rhsBuf
    { solverCalled := true
      rhsBuf := rhsBuf
      sol := rhsBuf.foldl (fun s entry => Function.update s entry.1 (solBuf entry.1)) step.2 }

/-! ## `Group._get_explicit_connections` (group.py lines 514-549)

The per-declaration resolution: look the source name up in
`_to_abs_unames` then `_to_abs_pnames`, and the target name up in
`_to_abs_pnames` with a fallback check in `_to_abs_unames` to
distinguish a nonexistent target from an invalid (source-typed) one. -/

inductive ConnectErr where
  | nonexistentSource
  | nonexistentTarget
  | invalidTarget
deriving DecidableEq, Repr

/-- Resolution of one explicitly declared connection `(src, tgt)`
against the group's promoted-to-absolute maps (group.py lines 526-547).
`toAbsU`/`toAbsP` are `_to_abs_unames`/`_to_abs_pnames`; `none` models a
`KeyError`.  On success, returns the list of
`(target_pathname, source_pathname)` pairs recorded for the connection. -/
def resolve_explicit_connection (toAbsU toAbsP : String → Option (List String))
    (src tgt : String) : Except ConnectErr (List (String × String)) :=
  let srcPathnames? : Except ConnectErr (List String) :=
    match toAbsU src with
    | some paths => Except.ok paths
    | none =>
      match toAbsP src with
      | some paths => Except.ok paths
      | none => Except.error ConnectErr.nonexistentSource
  match srcPathnames? with
  | Except.error e => Except.error e
  | Except.ok srcPathnames =>
    match toAbsP tgt with
    | some tgtPathnames =>
      Except.ok (tgtPathnames.flatMap (fun t => srcPathnames.map (fun s => (t, s))))
    | none =>
      match toAbsU tgt with
      | none => Except.error ConnectErr.nonexistentTarget
      | some _ => Except.error ConnectErr.invalidTarget

/-! ## `Group.add`, `Group.set_order`, `Group.list_order`
(group.py lines 86-123 and 769-823)

The state these methods touch is the ordered dict `self._subsystems`
(modelled by its key list, which is duplicate-free) and the
`self._order_set` flag.  Both methods raise before mutating, so an
`Except.error` result leaves the state unchanged. -/

structure GroupState where
  subsystems : List String
  orderSet : Bool
deriving DecidableEq, Repr

/-- Embeds `Group.list_order` (group.py lines 816-823): the subsystem keys in
order. -/
def list_order (g : GroupState) : List String := g.subsystems

/-- Embeds `Group.set_order` (group.py lines 769-814): raises `ValueError` when
the name sets differ or when the new order has duplicates; otherwise
rebuilds `_subsystems` in the new order and sets `_order_set`. -/
def set_order (g : GroupState) (newOrder : List String) :
    Except String GroupState :=
  if g.subsystems.toFinset ≠ newOrder.toFinset then
    Except.error "Unexpected new order."
  else if newOrder.toFinset.card < newOrder.length then
    Except.error "Duplicate name(s) found in order list."
  else
    Except.ok { subsystems := newOrder, orderSet := true }

/-- Embeds `Group.add` (group.py lines 86-123), tracking only the mutation of
the subsystem list: raises `RuntimeError` if an order has been set
(before any other check or mutation), then raises if the name is already
a subsystem, else appends the new subsystem. -/
def group_add (g : GroupState) (name : String) : Except String GroupState :=
  if g.orderSet then
    Except.error "You cannot call add after specifying an order."
  else if name ∈ g.subsystems then
    Except.error "already contains a subsystem with this name"
  else
    Except.ok { g with subsystems := g.subsystems ++ [name] }

/-- The state of the group after a `set_order` call, including the raise
cases: a Python `raise` occurs before any mutation of `_subsystems`, so
on error the state is the old one. -/
def set_order_state (g : GroupState) (newOrder : List String) : GroupState :=
  match set_order g newOrder with
  | Except.ok g' => g'
  | Except.error _ => g

/-- The state of the group after an `add` call, including the raise
cases: the `_order_set` check precedes every mutation, so on error the
state is the old one. -/
def group_add_state (g : GroupState) (name : String) : GroupState :=
  match group_add g name with
  | Except.ok g' => g'
  | Except.error _ => g

/-! ## Specification-side definitions

The next two definitions transcribe the claim's own words (spec §4.4
steps 2 and 4), for comparison against the embedded code. -/

/-- Spec-side selector: "`src_indices` when present, else `[0, size)`". -/
def argIdxsSpec (inp : GIdxInput) : List Int :=
  match inp.pmeta.srcIndices with
  | some idxs => idxs
  | none => (List.range inp.pmeta.size).map (fun (i : ℕ) => (i : Int))

/-- Spec-side target start: "`Σ p_sizes[0..var_rank-1][*] +
Σ p_sizes[var_rank][0..var_idx(tgt)-1]`". -/
def tgtStartSpec (inp : GIdxInput) : Int :=
  rectSum inp.pSizes (tgtVarRank inp) inp.pNVars +
    rowPrefixSum inp.pSizes (tgtVarRank inp) inp.pvarIdx

/-! ## Concrete instances used to exercise the definitions -/

/-- The `src_indices` selection scenario of spec §8 item 3: one rank, a
source variable of size 5 sitting after a size-7 variable in the
unknowns table, and a target with `src_indices = [0, 2, 4]` sitting
after a size-4 variable in the params table. -/
def scenarioInput : GIdxInput where
  umeta := { srcIndices := none, size := 5, remote := false }
  pmeta := { srcIndices := some [0, 2, 4], size := 3, remote := false }
  iproc := 0
  commSize := 1
  ownU := 0
  ownP := 0
  ivar := 1
  pvarIdx := 1
  uSizes := fun r c => if r = 0 then (if c = 0 then 7 else if c = 1 then 5 else 0) else 0
  uNVars := 2
  pSizes := fun r c => if r = 0 then (if c = 0 then 4 else if c = 1 then 3 else 0) else 0
  pNVars := 2
  rev := false

/-- A forward-mode connection whose target is remote on this rank. -/
def remoteScenarioInput : GIdxInput where
  umeta := { srcIndices := none, size := 4, remote := false }
  pmeta := { srcIndices := none, size := 4, remote := true }
  iproc := 1
  commSize := 2
  ownU := 0
  ownP := 1
  ivar := 0
  pvarIdx := 0
  uSizes := fun _ _ => 4
  uNVars := 1
  pSizes := fun _ _ => 4
  pNVars := 1
  rev := false

/-- A dparams entry with unit conversion `(100, 0)` (offset already
forced to zero by `TgtVecWrapper.setup`) and buffer value `[2]`. -/
def derivMetaEx : AccMeta where
  promoted_name := "x"
  pathname := "x"
  remote := false
  pass_by_obj := false
  unit_conv := some (100, 0)
  val := [2]

/-- A variable promoted to `x` from absolute path `sub.comp.x`, marked
remote on this rank. -/
def remoteMetaEx : AccMeta where
  promoted_name := "x"
  pathname := "sub.comp.x"
  remote := true
  pass_by_obj := false
  unit_conv := none
  val := []

/-! ## Theorems -/

/-- C4 counterexample: in reverse mode `IndepVarComp._sys_apply_linear`
increments `du` by `dr` rather than copying `dr` over it: with incoming
`du = 1` and `dr = 2` on every slot, the resulting `du` entry is `3`,
not the incoming `dr` value `2`. -/
theorem ivc_rev_accumulates_not_copies :
    (ivc_sys_apply_linear Mode.rev (fun _ => 1) (fun _ => 2) none).1 "x" = 3 ∧
    (3 : ℚ) ≠ (fun _ => (2 : ℚ)) "x" := by
  constructor
  · show (1 : ℚ) + 2 = 3
    norm_num
  · norm_num

/-- C4 (amended): `IndepVarComp._sys_apply_linear` acts as an identity
copy in forward mode — afterwards `dr` equals the incoming `du`,
restricted to the rows of the `gs_outputs` mask (zero elsewhere, since
`dr` is zeroed first) when one is given — and as identity accumulation
in reverse mode: afterwards `du` equals the incoming `du` plus the
incoming `dr`, with the addition restricted to masked rows when a mask
is given. -/
theorem ivc_apply_linear_identity (du dr : String → ℚ) (mask : String → Bool)
    (v : String) :
    (ivc_sys_apply_linear Mode.fwd du dr none).2 v = du v ∧
    (ivc_sys_apply_linear Mode.fwd du dr (some mask)).2 v =
      (if mask v then du v else 0) ∧
    (ivc_sys_apply_linear Mode.rev du dr none).1 v = du v + dr v ∧
    (ivc_sys_apply_linear Mode.rev du dr (some mask)).1 v =
      (if mask v then du v + dr v else du v) :=
  ⟨rfl, rfl, rfl, rfl⟩

/-- C7: during explicit-connection resolution, a source name resolving
to neither an unknown nor a parameter raises `NonexistentSource`; a
target name resolving to no parameter and no unknown raises
`NonexistentTarget`; and a target resolving to no parameter but to an
unknown (a source-typed variable) raises `InvalidTarget`. -/
theorem resolve_connection_errors (toAbsU toAbsP : String → Option (List String))
    (src tgt : String) :
    (toAbsU src = none → toAbsP src = none →
      resolve_explicit_connection toAbsU toAbsP src tgt =
        Except.error ConnectErr.nonexistentSource) ∧
    (((toAbsU src).isSome ∨ (toAbsP src).isSome) → toAbsP tgt = none →
      toAbsU tgt = none →
      resolve_explicit_connection toAbsU toAbsP src tgt =
        Except.error ConnectErr.nonexistentTarget) ∧
    (((toAbsU src).isSome ∨ (toAbsP src).isSome) → toAbsP tgt = none →
      (toAbsU tgt).isSome →
      resolve_explicit_connection toAbsU toAbsP src tgt =
        Except.error ConnectErr.invalidTarget) := by
  refine ⟨?_, ?_, ?_⟩
  · intro h1 h2
    simp [resolve_explicit_connection, h1, h2]
  · intro hsrc h1 h2
    rcases hu : toAbsU src with _ | l
    · rcases hp : toAbsP src with _ | l
      · rw [hu, hp] at hsrc
        simp at hsrc
      · simp [resolve_explicit_connection, hu, hp, h1, h2]
    · simp [resolve_explicit_connection, hu, h1, h2]
  · intro hsrc h1 h2
    rcases ht : toAbsU tgt with _ | tl
    · rw [ht] at h2
      simp at h2
    · rcases hu : toAbsU src with _ | l
      · rcases hp : toAbsP src with _ | l
        · rw [hu, hp] at hsrc
          simp at hsrc
        · simp [resolve_explicit_connection, hu, hp, h1, ht]
      · simp [resolve_explicit_connection, hu, h1, ht]

/-- C7 witness: with a source map resolving only `s` and an empty
parameter map, connecting `s` to `t` raises `NonexistentTarget`. -/
theorem resolve_connection_errors_witness :
    resolve_explicit_connection
      (fun n => if n = "s" then some ["c.s"] else none) (fun _ => none)
      "s" "t" = Except.error ConnectErr.nonexistentTarget :=
  (resolve_connection_errors
      (fun n => if n = "s" then some ["c.s"] else none) (fun _ => none)
      "s" "t").2.1 (Or.inl (by simp)) rfl (by simp)

/-- C9: for a group whose child names are duplicate-free, `set_order`
with a duplicate-free permutation of them succeeds and a subsequent
`list_order` returns exactly that permutation; any other list makes
`set_order` raise a `ValueError` while the child order stays unchanged
(the raise precedes the mutation of `_subsystems`). -/
theorem set_order_list_order_roundtrip (g : GroupState) (p : List String)
    (hg : g.subsystems.Nodup) :
    (p.Nodup → p.Perm g.subsystems →
      set_order g p = Except.ok { subsystems := p, orderSet := true } ∧
      list_order (set_order_state g p) = p) ∧
    (¬ (p.Nodup ∧ p.Perm g.subsystems) →
      (∃ msg, set_order g p = Except.error msg) ∧ set_order_state g p = g) := by
  constructor
  · intro hp hperm
    have hfin : g.subsystems.toFinset = p.toFinset :=
      (List.toFinset_eq_of_perm _ _ hperm).symm
    have hcard : p.toFinset.card = p.length := List.toFinset_card_of_nodup hp
    constructor
    · simp [set_order, hfin, hcard]
    · simp [set_order_state, set_order, hfin, hcard, list_order]
  · intro hnot
    by_cases hfin : g.subsystems.toFinset = p.toFinset
    · by_cases hdup : p.toFinset.card < p.length
      · constructor
        · exact ⟨"Duplicate name(s) found in order list.",
            by simp [set_order, hfin, hdup]⟩
        · simp [set_order_state, set_order, hfin, hdup]
      · exfalso
        have hlen : p.toFinset.card = p.length :=
          le_antisymm (List.toFinset_card_le p) (not_lt.mp hdup)
        have hdlen : p.dedup.length = p.length := by
          rw [← List.card_toFinset]
          exact hlen
        have hdd : p.dedup = p := (List.dedup_sublist p).eq_of_length hdlen
        have hnodup : p.Nodup := hdd ▸ List.nodup_dedup p
        exact hnot ⟨hnodup,
          List.perm_of_nodup_nodup_toFinset_eq hnodup hg hfin.symm⟩
    · constructor
      · exact ⟨"Unexpected new order.", by simp [set_order, hfin]⟩
      · simp [set_order_state, set_order, hfin]

/-- C9 witness: reordering the two children `["a", "b"]` to
`["b", "a"]` succeeds and `list_order` returns `["b", "a"]`. -/
theorem set_order_list_order_roundtrip_witness :
    set_order ⟨["a", "b"], false⟩ ["b", "a"] =
      Except.ok { subsystems := ["b", "a"], orderSet := true } ∧
    list_order (set_order_state ⟨["a", "b"], false⟩ ["b", "a"]) = ["b", "a"] :=
  (set_order_list_order_roundtrip ⟨["a", "b"], false⟩ ["b", "a"] (by decide)).1
    (by decide) (List.Perm.swap "a" "b" [])

/-- C10: once `set_order` has succeeded on a group, every subsequent
`add` raises a `RuntimeError` and leaves the subsystem list and its
order unchanged (the `_order_set` check precedes every mutation). -/
theorem add_after_set_order_raises (g g' : GroupState) (p : List String)
    (name : String) (h : set_order g p = Except.ok g') :
    group_add g' name =
      Except.error "You cannot call add after specifying an order." ∧
    group_add_state g' name = g' := by
  have horder : g'.orderSet = true := by
    unfold set_order at h
    split at h
    · exact absurd h (by simp)
    · split at h
      · exact absurd h (by simp)
      · injection h with h
        rw [← h]
  constructor
  · simp [group_add, horder]
  · simp [group_add_state, group_add, horder]

/-- C10 witness: after ordering the single child `["a"]`, adding a
child named `b` raises and leaves the state unchanged. -/
theorem add_after_set_order_raises_witness :
    group_add ⟨["a"], true⟩ "b" =
      Except.error "You cannot call add after specifying an order." ∧
    group_add_state ⟨["a"], true⟩ "b" = ⟨["a"], true⟩ :=
  add_after_set_order_raises ⟨["a"], false⟩ ⟨["a"], true⟩ ["a"] "b" (by rfl)

/-- C5 counterexample: a dparams entry with stored conversion
`(100, 0)` and buffer value `[2]` reads back the raw buffer `[2]` — the
accessor applies no scale in a deriv-units wrapper — whereas scale
times the buffer would be `[200]`. -/
theorem deriv_read_returns_raw_buffer :
    vw_read true derivMetaEx = Except.ok [(2 : ℚ)] ∧
    derivMetaEx.val.map (fun x => 100 * x) ≠ [(2 : ℚ)] := by
  refine ⟨rfl, ?_⟩
  show [(100 : ℚ) * 2] ≠ [2]
  norm_num

/-- C5 (amended): in a dparams vector the stored unit conversion has
offset forced to `0.0`, accessor reads return the raw buffer entries
without applying the conversion (`_get_arr`), and the scale is applied
in place to the buffer by `_apply_unit_derivatives` with no offset;
non-derivative params reads return `scale * (value + offset)`. -/
theorem unit_conv_deriv_offset_zero (scale offset : ℚ) (meta : AccMeta)
    (hr : meta.remote = false) (hp : meta.pass_by_obj = false)
    (hu : meta.unit_conv = some (scale, offset)) :
    stored_unit_conv true (scale, offset) = (scale, 0) ∧
    vw_read true meta = Except.ok meta.val ∧
    (apply_unit_derivatives true meta).val = meta.val.map (fun x => x * scale) ∧
    vw_read false meta = Except.ok (meta.val.map (fun x => scale * (x + offset))) := by
  refine ⟨rfl, ?_, ?_, ?_⟩ <;>
    simp [vw_read, apply_unit_derivatives, hr, hp, hu]

/-- C5 witness: the amended statement evaluated on the concrete dparams
entry with conversion `(100, 0)` and buffer `[2]`. -/
theorem unit_conv_deriv_offset_zero_witness :
    stored_unit_conv true (100, 0) = (100, 0) ∧
    vw_read true derivMetaEx = Except.ok derivMetaEx.val ∧
    (apply_unit_derivatives true derivMetaEx).val =
      derivMetaEx.val.map (fun x => x * 100) ∧
    vw_read false derivMetaEx =
      Except.ok (derivMetaEx.val.map (fun x => 100 * (x + 0))) :=
  unit_conv_deriv_offset_zero 100 0 derivMetaEx rfl rfl rfl

/-- C8 counterexample: accessing the remote variable with absolute path
`sub.comp.x`, promoted to `x`, raises a `RuntimeError` whose message
interpolates only the promoted name — the absolute path does not occur
in the message. -/
theorem remote_access_msg_lacks_abs_path :
    vw_read false remoteMetaEx =
      Except.error "Cannot access remote Variable 'x' in this process." ∧
    ¬ (remoteMetaEx.pathname.data <:+:
        "Cannot access remote Variable 'x' in this process.".data) :=
  ⟨rfl, by decide⟩

/-- C8 (amended): every read or write through a `VecWrapper` accessor
of a variable marked remote on this rank raises a `RuntimeError`, and
the message contains the variable's promoted name (which equals the
absolute path only for unpromoted root-level variables). -/
theorem remote_access_raises (derivUnits : Bool) (meta : AccMeta)
    (value : List ℚ) (h : meta.remote = true) :
    vw_read derivUnits meta = Except.error (remote_access_msg meta) ∧
    vw_write meta value = Except.error (remote_access_msg meta) ∧
    meta.promoted_name.data <:+: (remote_access_msg meta).data := by
  refine ⟨by simp [vw_read, h], by simp [vw_write, h], ?_⟩
  refine ⟨"Cannot access remote Variable '".data, "' in this process.".data, ?_⟩
  simp [remote_access_msg, String.data_append]

/-- C8 witness: the amended statement evaluated on the remote variable
`sub.comp.x` promoted to `x`. -/
theorem remote_access_raises_witness :
    vw_read true remoteMetaEx = Except.error (remote_access_msg remoteMetaEx) ∧
    vw_write remoteMetaEx [] = Except.error (remote_access_msg remoteMetaEx) ∧
    remoteMetaEx.promoted_name.data <:+: (remote_access_msg remoteMetaEx).data :=
  remote_access_raises true remoteMetaEx [] rfl

/-- In a concatenated trace whose first part has no `q`-events and whose
second part has no `p`-events, every `p`-event index precedes every
`q`-event index. -/
theorem append_index_order {α : Type} (A B : List α) (p q : α → Bool)
    (hA : ∀ a ∈ A, q a = false) (hB : ∀ b ∈ B, p b = false)
    (i j : ℕ) (hi : i < (A ++ B).length) (hj : j < (A ++ B).length)
    (hp : p ((A ++ B).get ⟨i, hi⟩) = true)
    (hq : q ((A ++ B).get ⟨j, hj⟩) = true) : i < j := by
  have hiA : i < A.length := by
    by_contra hge
    push_neg at hge
    have hmem : (A ++ B).get ⟨i, hi⟩ ∈ B := by
      rw [List.get_eq_getElem, List.getElem_append_right hge]
      exact List.getElem_mem _
    rw [hB _ hmem] at hp
    cases hp
  have hjA : A.length ≤ j := by
    by_contra hlt
    push_neg at hlt
    have hmem : (A ++ B).get ⟨j, hj⟩ ∈ A := by
      rw [List.get_eq_getElem, List.getElem_append_left hlt]
      exact List.getElem_mem _
    rw [hA _ hmem] at hq
    cases hq
  omega

/-- Version of `append_index_order` taking the decomposition of the
trace as an equation, so it applies without rewriting under binders. -/
theorem append_index_order_of_eq {α : Type} (L A B : List α) (p q : α → Bool)
    (hL : L = A ++ B)
    (hA : ∀ a ∈ A, q a = false) (hB : ∀ b ∈ B, p b = false)
    (i j : ℕ) (hi : i < L.length) (hj : j < L.length)
    (hp : p (L.get ⟨i, hi⟩) = true)
    (hq : q (L.get ⟨j, hj⟩) = true) : i < j := by
  subst hL
  exact append_index_order A B p q hA hB i j hi hj hp hq

/-- C3: in `Group._sys_apply_linear` on an active group, the full
forward derivative scatter happens for every VOI, and in forward mode
every scatter event precedes every child `_sys_apply_linear`
invocation, while in reverse mode every child invocation precedes every
scatter event. -/
theorem group_apply_linear_scatter_order (forceFD : Bool)
    (vois : List (Option String)) (children : List String) :
    (∀ voi ∈ vois,
      LinEvent.xfer Mode.fwd voi ∈
        group_sys_apply_linear true forceFD Mode.fwd vois children ∧
      LinEvent.xfer Mode.rev voi ∈
        group_sys_apply_linear true forceFD Mode.rev vois children) ∧
    (∀ (i j : ℕ)
      (hi : i < (group_sys_apply_linear true forceFD Mode.fwd vois children).length)
      (hj : j < (group_sys_apply_linear true forceFD Mode.fwd vois children).length),
      isXfer ((group_sys_apply_linear true forceFD Mode.fwd vois children).get
        ⟨i, hi⟩) = true →
      isChildApply ((group_sys_apply_linear true forceFD Mode.fwd vois children).get
        ⟨j, hj⟩) = true →
      i < j) ∧
    (∀ (i j : ℕ)
      (hi : i < (group_sys_apply_linear true forceFD Mode.rev vois children).length)
      (hj : j < (group_sys_apply_linear true forceFD Mode.rev vois children).length),
      isChildApply ((group_sys_apply_linear true forceFD Mode.rev vois children).get
        ⟨i, hi⟩) = true →
      isXfer ((group_sys_apply_linear true forceFD Mode.rev vois children).get
        ⟨j, hj⟩) = true →
      i < j) := by
  have hmid : ∀ b ∈ (if forceFD then [LinEvent.fdFallback]
      else children.map LinEvent.childApply), isXfer b = false := by
    intro b hb
    by_cases hf : forceFD
    · simp [hf] at hb
      subst hb
      rfl
    · simp [hf] at hb
      obtain ⟨c, _, rfl⟩ := hb
      rfl
  have hFcast : group_sys_apply_linear true forceFD Mode.fwd vois children =
      vois.map (LinEvent.xfer Mode.fwd) ++
        (if forceFD then [LinEvent.fdFallback]
         else children.map LinEvent.childApply) := by
    simp [group_sys_apply_linear]
  have hRcast : group_sys_apply_linear true forceFD Mode.rev vois children =
      (if forceFD then [LinEvent.fdFallback]
        else children.map LinEvent.childApply) ++
        vois.map (LinEvent.xfer Mode.rev) := by
    simp [group_sys_apply_linear]
  refine ⟨?_, ?_, ?_⟩
  · intro voi hv
    constructor
    · rw [hFcast]
      exact List.mem_append_left _ (List.mem_map_of_mem _ hv)
    · rw [hRcast]
      exact List.mem_append_right _ (List.mem_map_of_mem _ hv)
  · intro i j hi hj hx hc
    refine append_index_order_of_eq _ _ _ isXfer isChildApply hFcast ?_ hmid
      i j hi hj hx hc
    intro a ha
    obtain ⟨v, _, rfl⟩ := List.mem_map.mp ha
    rfl
  · intro i j hi hj hc hx
    refine append_index_order_of_eq _ _ _ isChildApply isXfer hRcast hmid ?_
      i j hi hj hc hx
    intro a ha
    obtain ⟨v, _, rfl⟩ := List.mem_map.mp ha
    rfl

/-- C3 witness: with one VOI and one child, the forward trace contains
the forward scatter and its index `0` precedes the child index `1`. -/
theorem group_apply_linear_scatter_order_witness :
    (LinEvent.xfer Mode.fwd none ∈
      group_sys_apply_linear true false Mode.fwd [none] ["c"]) ∧ (0 : ℕ) < 1 := by
  have h := group_apply_linear_scatter_order false [none] ["c"]
  exact ⟨(h.1 none (by simp)).1, h.2.1 0 1 (by decide) (by decide) rfl rfl⟩

/-- Zeroing is idempotent. -/
theorem zeroLike_zeroLike (v : List ℚ) : zeroLike (zeroLike v) = zeroLike v := by
  simp [zeroLike]

/-- The `rhs_buf` accumulated by the VOI loop of `solve_linear`: the
starting buffer followed by one entry per VOI whose right-hand side is
not numerically zero, in iteration order. -/
theorem slFold_buf (rhs : Option String → List ℚ) (vois : List (Option String)) :
    ∀ (buf : List (Option String × List ℚ)) (s : Option String → List ℚ),
      (vois.foldl (slStep rhs) (buf, s)).1 =
        buf ++ (vois.filter (fun v => !normLtTol (rhs v))).map
          (fun v => (v, rhs v)) := by
  induction vois with
  | nil => intro buf s; simp
  | cons v rest ih =>
    intro buf s
    by_cases h : normLtTol (rhs v)
    · simp [slStep, h, ih]
    · simp [slStep, h, ih]

/-- Once a VOI's solution entry has been zeroed, the rest of the VOI
loop keeps it zeroed. -/
theorem slFold_sol_done (rhs : Option String → List ℚ) (w : Option String)
    (z : List ℚ) (vois : List (Option String)) :
    ∀ (buf : List (Option String × List ℚ)) (s : Option String → List ℚ),
      s w = zeroLike z →
      (vois.foldl (slStep rhs) (buf, s)).2 w = zeroLike z := by
  induction vois with
  | nil => intro buf s hs; exact hs
  | cons v rest ih =>
    intro buf s hs
    rw [List.foldl_cons]
    by_cases h : normLtTol (rhs v)
    · have hstep : slStep rhs (buf, s) v =
          (buf, Function.update s v (zeroLike (s v))) := by
        simp [slStep, h]
      rw [hstep]
      refine ih _ _ ?_
      by_cases hv : v = w
      · subst hv
        rw [Function.update_same, hs, zeroLike_zeroLike]
      · rw [Function.update_noteq (Ne.symm hv)]
        exact hs
    · have hstep : slStep rhs (buf, s) v = (buf ++ [(v, rhs v)], s) := by
        simp [slStep, h]
      rw [hstep]
      exact ih _ _ hs

/-- A VOI appearing in the loop with a numerically zero right-hand side
ends with its solution entry zeroed. -/
theorem slFold_sol_zeroed (rhs : Option String → List ℚ) (w : Option String)
    (hw : normLtTol (rhs w) = true) (vois : List (Option String)) :
    ∀ (buf : List (Option String × List ℚ)) (s : Option String → List ℚ)
      (z : List ℚ), (s w = z ∨ s w = zeroLike z) → w ∈ vois →
      (vois.foldl (slStep rhs) (buf, s)).2 w = zeroLike z := by
  induction vois with
  | nil => intro buf s z _ hmem; cases hmem
  | cons v rest ih =>
    intro buf s z hinv hmem
    rw [List.foldl_cons]
    by_cases hv : v = w
    · subst hv
      have hstep : slStep rhs (buf, s) v =
          (buf, Function.update s v (zeroLike (s v))) := by
        simp [slStep, hw]
      rw [hstep]
      refine slFold_sol_done rhs v z rest _ _ ?_
      rcases hinv with h | h
      · rw [Function.update_same, h]
      · rw [Function.update_same, h, zeroLike_zeroLike]
    · have hmem' : w ∈ rest := by
        rcases List.mem_cons.mp hmem with h | h
        · exact absurd h.symm hv
        · exact h
      by_cases h : normLtTol (rhs v)
      · have hstep : slStep rhs (buf, s) v =
            (buf, Function.update s v (zeroLike (s v))) := by
          simp [slStep, h]
        rw [hstep]
        refine ih _ _ z ?_ hmem'
        rw [Function.update_noteq (Ne.symm hv)]
        exact hinv
      · have hstep : slStep rhs (buf, s) v = (buf ++ [(v, rhs v)], s) := by
          simp [slStep, h]
        rw [hstep]
        exact ih _ _ z hinv hmem'

/-- The solver write-back loop of `solve_linear` leaves entries of VOIs
absent from `rhs_buf` untouched. -/
theorem writeback_preserves (solBuf : Option String → List ℚ)
    (w : Option String) (buf : List (Option String × List ℚ)) :
    ∀ (s : Option String → List ℚ), w ∉ buf.map Prod.fst →
      (buf.foldl
        (fun (s : Option String → List ℚ) entry =>
          Function.update s entry.1 (solBuf entry.1)) s) w = s w := by
  induction buf with
  | nil => intro s _; rfl
  | cons e rest ih =>
    intro s hw
    simp only [List.map_cons, List.mem_cons, not_or] at hw
    rw [List.foldl_cons, ih _ (by simpa using hw.2)]
    rw [Function.update_noteq hw.1]

/-- C6: in `Group.solve_linear`, every VOI whose right-hand side has L2
norm below `1e-15` has its solution vector zeroed and is excluded from
the `rhs_buf` handed to the installed linear solver; when every VOI is
excluded the solver's `solve` is never invoked. -/
theorem solve_linear_short_circuit (vois : List (Option String))
    (rhs sol : Option String → List ℚ)
    (solver : List (Option String × List ℚ) → Option String → List ℚ) :
    (∀ voi ∈ vois, normLtTol (rhs voi) = true →
      (solve_linear vois rhs sol solver).sol voi = zeroLike (sol voi) ∧
      voi ∉ (solve_linear vois rhs sol solver).rhsBuf.map Prod.fst) ∧
    ((∀ voi ∈ vois, normLtTol (rhs voi) = true) →
      (solve_linear vois rhs sol solver).solverCalled = false) := by
  have hbuf : (vois.foldl (slStep rhs) ([], sol)).1 =
      (vois.filter (fun v => !normLtTol (rhs v))).map (fun v => (v, rhs v)) := by
    simpa using slFold_buf rhs vois [] sol
  constructor
  · intro voi hmem hlt
    have hnotbuf : voi ∉ ((vois.foldl (slStep rhs) ([], sol)).1).map Prod.fst := by
      rw [hbuf]
      intro hin
      rw [List.map_map] at hin
      obtain ⟨x, hx, hxe⟩ := List.mem_map.mp hin
      have hfx := List.of_mem_filter hx
      rw [show (Prod.fst ∘ fun v => (v, rhs v)) x = x from rfl] at hxe
      rw [hxe, hlt] at hfx
      cases hfx
    have hsol2 : (vois.foldl (slStep rhs) ([], sol)).2 voi = zeroLike (sol voi) :=
      slFold_sol_zeroed rhs voi hlt vois [] sol (sol voi) (Or.inl rfl) hmem
    unfold solve_linear
    by_cases hlen : (vois.foldl (slStep rhs) ([], sol)).1.length = 0
    · rw [if_pos hlen]
      exact ⟨hsol2, hnotbuf⟩
    · rw [if_neg hlen]
      refine ⟨?_, hnotbuf⟩
      exact (writeback_preserves _ voi _ _ hnotbuf).trans hsol2
  · intro hall
    have hfil : vois.filter (fun v => !normLtTol (rhs v)) = [] := by
      rw [List.filter_eq_nil_iff]
      intro a ha
      simp [hall a ha]
    have hlen : (vois.foldl (slStep rhs) ([], sol)).1.length = 0 := by
      rw [hbuf, hfil]
      rfl
    unfold solve_linear
    rw [if_pos hlen]

/-- C6 witness: a single VOI with right-hand side `[0]` is
short-circuited — its solution is zeroed and the solver is not
called. -/
theorem solve_linear_short_circuit_witness :
    (solve_linear [none] (fun _ => [0]) (fun _ => [5])
      (fun _ _ => [])).sol none = zeroLike [5] ∧
    (solve_linear [none] (fun _ => [0]) (fun _ => [5])
      (fun _ _ => [])).solverCalled = false := by
  have h := solve_linear_short_circuit [none] (fun _ => [0]) (fun _ => [5])
    (fun _ _ => [])
  have hlt : normLtTol ((fun _ : Option String => [(0 : ℚ)]) none) = true := by
    norm_num [normLtTol]
  exact ⟨(h.1 none (by simp) hlt).1, h.2 (fun voi _ => hlt)⟩

/-- For a natural `n`, `make_idx_array 0 n` is the list `[0, 1, ..., n)`. -/
theorem make_idx_array_zero (n : ℕ) :
    make_idx_array 0 n = (List.range n).map (fun (i : ℕ) => (i : Int)) := by
  simp [make_idx_array]

/-- For a natural `n`, `make_idx_array 0 n` has length `n`. -/
theorem make_idx_array_zero_length (n : ℕ) :
    (make_idx_array 0 n).length = n := by
  rw [make_idx_array_zero, List.length_map, List.length_range]

/-- C2: on every rank and for every connection, `_get_global_idxs`
returns index arrays of equal length, and when the remote-endpoint test
fires (target remote in forward mode, or the reverse-mode analogues)
both arrays are empty. -/
theorem get_global_idxs_len_eq (inp : GIdxInput) :
    (get_global_idxs inp).1.length = (get_global_idxs inp).2.length ∧
    (remoteShortcut inp = true →
      (get_global_idxs inp).1 = [] ∧ (get_global_idxs inp).2 = []) := by
  unfold get_global_idxs
  by_cases h : remoteShortcut inp
  · rw [if_pos h]
    exact ⟨rfl, fun _ => ⟨rfl, rfl⟩⟩
  · rw [if_neg h]
    refine ⟨?_, fun hc => absurd hc h⟩
    by_cases hd : inp.umeta.srcIndices.isSome || inp.pmeta.srcIndices.isSome
    · simp [hd, make_idx_array_zero_length]
    · simp [hd, make_idx_array_zero_length]

/-- C2 witness: the forward-mode connection whose target is remote on
this rank yields two empty index arrays. -/
theorem get_global_idxs_len_eq_witness :
    remoteShortcut remoteScenarioInput = true ∧
    (get_global_idxs remoteScenarioInput).1 = [] ∧
    (get_global_idxs remoteScenarioInput).2 = [] :=
  ⟨rfl, (get_global_idxs_len_eq remoteScenarioInput).2 rfl⟩

/-- C1: for a connection not short-circuited by the remote test, the
selector `arg_idxs` equals the target's `src_indices` when present and
`[0, size)` otherwise; the returned source array has one entry per
selector entry, and the returned target array is the contiguous block
of length `|arg_idxs|` starting at `Σ p_sizes[0..var_rank-1][*] +
Σ p_sizes[var_rank][0..var_idx(tgt)-1]`.  In the concrete scenario of a
size-5 source and a target with `src_indices = [0, 2, 4]`, the source
indices minus the source variable's start offset (7) equal `[0, 2, 4]`
and the target indices are the contiguous block `[4, 5, 6]` of
length 3. -/
theorem get_global_idxs_selector_and_block (inp : GIdxInput)
    (h : remoteShortcut inp = false) :
    (argIdxsOf inp = argIdxsSpec inp ∧
     (get_global_idxs inp).1.length = (argIdxsSpec inp).length ∧
     (get_global_idxs inp).2 =
       (List.range (argIdxsSpec inp).length).map
         (fun (k : ℕ) => tgtStartSpec inp + (k : Int))) ∧
    ((get_global_idxs scenarioInput).1.map (fun a => a - 7) = [0, 2, 4] ∧
     (get_global_idxs scenarioInput).2 = [4, 5, 6]) := by
  have hargs : argIdxsOf inp = argIdxsSpec inp := by
    unfold argIdxsOf argIdxsSpec
    cases inp.pmeta.srcIndices with
    | some idxs => rfl
    | none => exact make_idx_array_zero inp.pmeta.size
  have hts : tgtStartOf inp = tgtStartSpec inp := rfl
  refine ⟨⟨hargs, ?_, ?_⟩, ?_, ?_⟩
  · unfold get_global_idxs
    rw [if_neg (by rw [h]; exact Bool.false_ne_true)]
    rw [← hargs]
    by_cases hd : inp.umeta.srcIndices.isSome || inp.pmeta.srcIndices.isSome
    · simp [hd]
    · simp [hd]
  · unfold get_global_idxs
    rw [if_neg (by rw [h]; exact Bool.false_ne_true)]
    rw [← hargs, ← hts]
    by_cases hd : inp.umeta.srcIndices.isSome || inp.pmeta.srcIndices.isSome
    · simp only [hd, if_true, make_idx_array_zero, List.map_map]
      refine List.map_congr_left ?_
      intro a _
      simp [Function.comp]
      ring
    · simp only [hd, Bool.false_eq_true, if_false, make_idx_array_zero,
        List.map_map]
      refine List.map_congr_left ?_
      intro a _
      simp [Function.comp]
      ring
  · decide
  · decide

/-- C1 witness: the concrete `src_indices = [0, 2, 4]` scenario is not
short-circuited and its target block matches the spec formula. -/
theorem get_global_idxs_selector_and_block_witness :
    remoteShortcut scenarioInput = false ∧
    (get_global_idxs scenarioInput).2 =
      (List.range (argIdxsSpec scenarioInput).length).map
        (fun (k : ℕ) => tgtStartSpec scenarioInput + (k : Int)) :=
  ⟨rfl, ((get_global_idxs_selector_and_block scenarioInput rfl).1).2.2⟩

end OpenMDAO
